import Mathlib

/-!
A shallow embedding, over the rationals, of the qtrader simulation core:
the Position/Portfolio ledger from src/qtrader/types.py, the paper broker
from src/qtrader/broker/paper.py, the risk overlay from
src/qtrader/risk/manager.py, and the per-bar simulation loop from
src/qtrader/engine/backtest.py.

Float values are modelled by ℚ.  A float slot that can be NaN (a bar field
that is missing or not numeric) is modelled by Option ℚ, with none playing
the role of NaN; `np.isfinite x` becomes `x.isSome`.  Python dicts keyed by
symbol are modelled by association lists in insertion order.
-/

namespace QTrader

/-- Embeds enum OrderSide from src/qtrader/types.py. -/
inductive OrderSide where
  | BUY
  | SELL
deriving DecidableEq

/-- Embeds dataclass Fill from src/qtrader/types.py. -/
structure Fill where
  order_id : ℕ
  symbol : String
  side : OrderSide
  quantity : ℚ
  price : ℚ
  commission : ℚ
  slippage : ℚ
deriving DecidableEq

/-- Embeds dataclass Position from src/qtrader/types.py. -/
structure Position where
  symbol : String
  quantity : ℚ := 0
  average_price : ℚ := 0
deriving DecidableEq

/-- The signed quantity of a fill: `fill.quantity if fill.side == OrderSide.BUY
else -fill.quantity` (from Position.update_with_fill). -/
def signedQty (fill : Fill) : ℚ :=
  if fill.side = OrderSide.BUY then fill.quantity else -fill.quantity

/-- Embeds Position.update_with_fill from src/qtrader/types.py (functional:
returns the mutated position). -/
def Position.update_with_fill (p : Position) (fill : Fill) : Position :=
  if fill.quantity = 0 then p
  else
    let signed_qty := signedQty fill
    let new_quantity := p.quantity + signed_qty
    if new_quantity = 0 then
      { p with quantity := 0, average_price := 0 }
    else if p.quantity = 0 ∨ (0 < p.quantity ∧ 0 < signed_qty) ∨ (p.quantity < 0 ∧ signed_qty < 0) then
      let total_cost := p.average_price * |p.quantity| + fill.price * |signed_qty|
      { p with quantity := new_quantity, average_price := total_cost / |new_quantity| }
    else if (0 < new_quantity ∧ 0 < signed_qty) ∨ (new_quantity < 0 ∧ signed_qty < 0) then
      { p with quantity := new_quantity, average_price := fill.price }
    else
      { p with quantity := new_quantity }

/-- Embeds dataclass Portfolio from src/qtrader/types.py; the positions dict
is an association list in insertion order. -/
structure Portfolio where
  cash : ℚ
  positions : List (String × Position) := []
deriving DecidableEq

/-- Dict lookup `positions.get(symbol)`. -/
def lookupPos (l : List (String × Position)) (symbol : String) : Option Position :=
  (l.find? (fun e => e.1 == symbol)).map (fun e => e.2)

/-- Dict store `positions[symbol] = p` for a key already present. -/
def setPos (l : List (String × Position)) (symbol : String) (p : Position) :
    List (String × Position) :=
  l.map (fun e => if e.1 == symbol then (e.1, p) else e)

/-- Embeds Portfolio.get_or_create_position from src/qtrader/types.py
(functional: returns the position and the possibly-extended portfolio). -/
def Portfolio.get_or_create_position (pf : Portfolio) (symbol : String) :
    Position × Portfolio :=
  match lookupPos pf.positions symbol with
  | some p => (p, pf)
  | none =>
    let p : Position := { symbol := symbol }
    (p, { pf with positions := pf.positions ++ [(symbol, p)] })

/-- Dict lookup with default: `last_prices.get(symbol, 0.0)`. -/
def priceGet (last_prices : List (String × ℚ)) (symbol : String) : ℚ :=
  match last_prices.find? (fun e => e.1 == symbol) with
  | some e => e.2
  | none => 0

/-- Embeds Portfolio.total_equity from src/qtrader/types.py. -/
def Portfolio.total_equity (pf : Portfolio) (last_prices : List (String × ℚ)) : ℚ :=
  pf.cash + (pf.positions.map (fun e => e.2.quantity * priceGet last_prices e.1)).sum

/-- A sequence of fills applied in order to a position
(each one via Position.update_with_fill). -/
def applyFills (p : Position) (fills : List Fill) : Position :=
  fills.foldl Position.update_with_fill p

/-- The strengthened ledger invariant: a flat position has zero cost basis and
a non-flat position built from positively-priced fills has positive cost basis. -/
def PosInv (p : Position) : Prop :=
  (p.quantity = 0 ∧ p.average_price = 0) ∨ (p.quantity ≠ 0 ∧ 0 < p.average_price)

theorem signedQty_eq_zero_iff (fill : Fill) : signedQty fill = 0 ↔ fill.quantity = 0 := by
  unfold signedQty
  split <;> simp

theorem posInv_update (p : Position) (f : Fill) (hf : 0 < f.price) (h : PosInv p) :
    PosInv (p.update_with_fill f) := by
  unfold Position.update_with_fill
  by_cases h0 : f.quantity = 0
  · simpa [h0] using h
  simp only [h0, if_false]
  have hs : signedQty f ≠ 0 := fun hc => h0 ((signedQty_eq_zero_iff f).mp hc)
  by_cases h1 : p.quantity + signedQty f = 0
  · simp only [h1, if_true]
    exact Or.inl ⟨rfl, rfl⟩
  simp only [h1, if_false]
  by_cases h2 : p.quantity = 0 ∨ (0 < p.quantity ∧ 0 < signedQty f) ∨ (p.quantity < 0 ∧ signedQty f < 0)
  · simp only [h2, if_true]
    refine Or.inr ⟨h1, ?_⟩
    have hnum : 0 < p.average_price * |p.quantity| + f.price * |signedQty f| := by
      have hA : 0 ≤ p.average_price * |p.quantity| := by
        rcases h with ⟨hq, ha⟩ | ⟨hq, ha⟩
        · simp [ha]
        · exact mul_nonneg (le_of_lt ha) (abs_nonneg _)
      have hB : 0 < f.price * |signedQty f| :=
        mul_pos hf (abs_pos.mpr hs)
      linarith
    exact div_pos hnum (abs_pos.mpr h1)
  simp only [h2, if_false]
  by_cases h3 : (0 < p.quantity + signedQty f ∧ 0 < signedQty f) ∨
      (p.quantity + signedQty f < 0 ∧ signedQty f < 0)
  · simp only [h3, if_true]
    exact Or.inr ⟨h1, hf⟩
  · simp only [h3, if_false]
    refine Or.inr ⟨h1, ?_⟩
    rcases h with ⟨hq, _⟩ | ⟨_, ha⟩
    · exact absurd (Or.inl hq) h2
    · exact ha

theorem posInv_applyFills (p : Position) (fills : List Fill)
    (hf : ∀ f ∈ fills, 0 < f.price) (h : PosInv p) : PosInv (applyFills p fills) := by
  induction fills generalizing p with
  | nil => exact h
  | cons f fs ih =>
    exact ih (p.update_with_fill f)
      (fun g hg => hf g (List.mem_cons_of_mem f hg))
      (posInv_update p f (hf f (List.mem_cons_self f fs)) h)

/-- C4: for every symbol and every sequence of broker-produced fills (positive
fill price), after each Position.update_with_fill (that is, after applying any
prefix of the fill sequence to a fresh flat position) the invariant
`quantity == 0 ⟺ average_price == 0` holds. -/
theorem position_flat_iff_zero_basis (symbol : String) (fills : List Fill) (n : ℕ)
    (hf : ∀ f ∈ fills, 0 < f.price) :
    ((applyFills { symbol := symbol } (fills.take n)).quantity = 0 ↔
      (applyFills { symbol := symbol } (fills.take n)).average_price = 0) := by
  have h := posInv_applyFills { symbol := symbol } (fills.take n)
    (fun f hmem => hf f (List.take_subset n fills hmem)) (Or.inl ⟨rfl, rfl⟩)
  rcases h with ⟨h1, h2⟩ | ⟨h1, h2⟩
  · exact iff_of_true h1 h2
  · exact iff_of_false h1 (ne_of_gt h2)

theorem position_flat_iff_zero_basis_witness :
    ((applyFills { symbol := "T" }
        ([{ order_id := 1, symbol := "T", side := OrderSide.BUY, quantity := 5,
            price := 10, commission := 0, slippage := 0 }].take 1)).quantity = 0 ↔
      (applyFills { symbol := "T" }
        ([{ order_id := 1, symbol := "T", side := OrderSide.BUY, quantity := 5,
            price := 10, commission := 0, slippage := 0 }].take 1)).average_price = 0) :=
  position_flat_iff_zero_basis "T" _ 1
    (by
      intro f hmem
      rw [List.mem_singleton] at hmem
      subst hmem
      norm_num)

/-- C5: reducing and reversing fills.  For a non-flat position receiving an
opposite-signed fill: crossing through flat resets average_price to the fill
price; a same-sign reduction leaves average_price unchanged.  A from-flat or
same-direction fill sets average_price to the weighted average
(average_price*|quantity| + fill.price*|delta|) / |new_quantity|. -/
theorem update_with_fill_cases (p : Position) (fill : Fill) :
    (((0 < p.quantity ∧ signedQty fill < 0) ∨ (p.quantity < 0 ∧ 0 < signedQty fill)) →
      (((0 < p.quantity + signedQty fill ∧ 0 < signedQty fill) ∨
          (p.quantity + signedQty fill < 0 ∧ signedQty fill < 0)) →
        p.update_with_fill fill =
          { p with quantity := p.quantity + signedQty fill, average_price := fill.price })
      ∧ (((0 < p.quantity + signedQty fill ∧ 0 < p.quantity) ∨
          (p.quantity + signedQty fill < 0 ∧ p.quantity < 0)) →
        p.update_with_fill fill = { p with quantity := p.quantity + signedQty fill }))
    ∧ (fill.quantity ≠ 0 →
        (p.quantity = 0 ∨ (0 < p.quantity ∧ 0 < signedQty fill) ∨
          (p.quantity < 0 ∧ signedQty fill < 0)) →
        p.quantity + signedQty fill ≠ 0 →
        p.update_with_fill fill =
          { p with
            quantity := p.quantity + signedQty fill,
            average_price := (p.average_price * |p.quantity| + fill.price * |signedQty fill|) / |p.quantity + signedQty fill| }) := by
  constructor
  · intro hopp
    have hs : signedQty fill ≠ 0 := by
      rcases hopp with ⟨_, hs⟩ | ⟨_, hs⟩
      · exact ne_of_lt hs
      · exact ne_of_gt hs
    have h0 : fill.quantity ≠ 0 := fun hc => hs (by
      unfold signedQty
      split <;> simp [hc])
    have h2 : ¬(p.quantity = 0 ∨ (0 < p.quantity ∧ 0 < signedQty fill) ∨
        (p.quantity < 0 ∧ signedQty fill < 0)) := by
      rcases hopp with ⟨hq, hs'⟩ | ⟨hq, hs'⟩ <;>
        rintro (hz | ⟨ha, hb⟩ | ⟨ha, hb⟩) <;> linarith
    constructor
    · intro hcross
      have h1 : p.quantity + signedQty fill ≠ 0 := by
        rcases hcross with ⟨hn, _⟩ | ⟨hn, _⟩
        · exact ne_of_gt hn
        · exact ne_of_lt hn
      unfold Position.update_with_fill
      simp only [h0, if_false, h1, if_false, h2, if_false, hcross, if_true]
    · intro hsame
      have h1 : p.quantity + signedQty fill ≠ 0 := by
        rcases hsame with ⟨hn, _⟩ | ⟨hn, _⟩
        · exact ne_of_gt hn
        · exact ne_of_lt hn
      have h3 : ¬((0 < p.quantity + signedQty fill ∧ 0 < signedQty fill) ∨
          (p.quantity + signedQty fill < 0 ∧ signedQty fill < 0)) := by
        rcases hopp with ⟨hq, hs'⟩ | ⟨hq, hs'⟩ <;>
          rcases hsame with ⟨hn, hq'⟩ | ⟨hn, hq'⟩ <;>
            rintro (⟨ha, hb⟩ | ⟨ha, hb⟩) <;> linarith
      unfold Position.update_with_fill
      simp only [h0, if_false, h1, if_false, h2, if_false, h3, if_false]
  · intro h0 h2 h1
    unfold Position.update_with_fill
    simp only [h0, if_false, h1, if_false, h2, if_true]

theorem update_with_fill_cases_witness :
    Position.update_with_fill { symbol := "T", quantity := 10, average_price := 100 }
        { order_id := 1, symbol := "T", side := OrderSide.SELL, quantity := 15,
          price := 97, commission := 0, slippage := 0 } =
      { symbol := "T", quantity := -5, average_price := 97 } := by
  have h := (update_with_fill_cases
      { symbol := "T", quantity := 10, average_price := 100 }
      { order_id := 1, symbol := "T", side := OrderSide.SELL, quantity := 15,
        price := 97, commission := 0, slippage := 0 }).1
    (by simp [signedQty] <;> norm_num) |>.1 (by simp [signedQty] <;> norm_num)
  rw [h]
  simp [signedQty] <;> norm_num

/-- Embeds dataclass PaperBroker from src/qtrader/broker/paper.py; the field
`pf` embeds the broker-owned portfolio attribute built in __post_init__, and
the dataclass defaults slippage_bps = 1.0 and commission_rate = 0.0005 are the
field defaults. -/
structure PaperBroker where
  symbol : String
  slippage_bps : ℚ := 1
  commission_rate : ℚ := 1 / 2000
  pf : Portfolio
  fills : List Fill := []
deriving DecidableEq

/-- PaperBroker(symbol=symbol, initial_cash=initial_cash) followed by
__post_init__, which sets the portfolio to Portfolio(cash=initial_cash). -/
def mkPaperBroker (symbol : String) (initial_cash : ℚ) : PaperBroker :=
  { symbol := symbol, pf := { cash := initial_cash } }

/-- Embeds PaperBroker._apply_trade from src/qtrader/broker/paper.py. -/
def PaperBroker.apply_trade (b : PaperBroker) (side : OrderSide) (quantity : ℚ) (price : ℚ) :
    PaperBroker :=
  if quantity = 0 then b
  else
    let side_sign : ℚ := if side = OrderSide.BUY then 1 else -1
    let slip_price := price * (1 + side_sign * (b.slippage_bps / 10000))
    let notional := |quantity| * slip_price
    let commission := notional * b.commission_rate
    let cash_delta := -side_sign * notional - commission
    let pf0 : Portfolio := { b.pf with cash := b.pf.cash + cash_delta }
    let pp := pf0.get_or_create_position b.symbol
    let fill : Fill :=
      { order_id := b.fills.length + 1,
        symbol := b.symbol,
        side := side,
        quantity := |quantity|,
        price := slip_price,
        commission := commission,
        slippage := |slip_price - price| * |quantity| }
    { b with
      pf := { pp.2 with positions := setPos pp.2.positions b.symbol (pp.1.update_with_fill fill) },
      fills := b.fills ++ [fill] }

/-- Python `int(x)` on a real value: truncation toward zero. -/
def ratTrunc (q : ℚ) : ℤ :=
  if 0 ≤ q then ⌊q⌋ else ⌈q⌉

/-- Embeds PaperBroker.equity from src/qtrader/broker/paper.py. -/
def PaperBroker.equity (b : PaperBroker) (price : ℚ) : ℚ :=
  Portfolio.total_equity b.pf [(b.symbol, price)]

/-- Embeds PaperBroker.rebalance_to_target_weight from src/qtrader/broker/paper.py.
Python `int(target_value // price)` is `⌊target_value / price⌋` (float floor
division), and `int(current_shares)` is truncation toward zero. -/
def PaperBroker.rebalance_to_target_weight (b : PaperBroker) (weight price : ℚ) :
    PaperBroker :=
  let equity := Portfolio.total_equity b.pf [(b.symbol, price)]
  let target_value := weight * equity
  let target_shares : ℤ := ⌊target_value / price⌋
  let pp := b.pf.get_or_create_position b.symbol
  let delta_shares : ℤ := target_shares - ratTrunc pp.1.quantity
  let b1 : PaperBroker := { b with pf := pp.2 }
  if delta_shares = 0 then b1
  else
    let side := if 0 < delta_shares then OrderSide.BUY else OrderSide.SELL
    b1.apply_trade side ((|delta_shares| : ℤ) : ℚ) price

/-- The broker's current position quantity for its own symbol (0 when the
position was never created). -/
def PaperBroker.currentQty (b : PaperBroker) : ℚ :=
  ((lookupPos b.pf.positions b.symbol).map Position.quantity).getD 0

/-- Modelled from the spec: `PaperBroker.close_position` is invoked by the
engine loop (`broker.close_position(price=float(exit_price))` in
src/qtrader/engine/backtest.py) but no definition of it exists anywhere in the
source tree; per spec §4.2 it "executes one trade of size |current_quantity|,
opposite side to the current position sign, at `price` — fully flattens". -/
def PaperBroker.close_position (b : PaperBroker) (price : ℚ) : PaperBroker :=
  let q := b.currentQty
  b.apply_trade (if 0 < q then OrderSide.SELL else OrderSide.BUY) |q| price

theorem update_quantity (p : Position) (f : Fill) :
    (p.update_with_fill f).quantity = p.quantity + signedQty f := by
  by_cases h0 : f.quantity = 0
  · have hz : signedQty f = 0 := (signedQty_eq_zero_iff f).mpr h0
    simp [Position.update_with_fill, h0, hz]
  · simp only [Position.update_with_fill, h0, if_false]
    split_ifs with h1 h2 h3 <;> simp [h1]

theorem update_symbol_eq (p : Position) (f : Fill) :
    (p.update_with_fill f).symbol = p.symbol := by
  by_cases h0 : f.quantity = 0
  · simp [Position.update_with_fill, h0]
  · simp only [Position.update_with_fill, h0, if_false]
    split_ifs <;> rfl

theorem beq_false_of_ne {a b : String} (h : a ≠ b) : (a == b) = false :=
  beq_eq_false_iff_ne.mpr h

theorem lookupPos_nil (sym : String) : lookupPos [] sym = none := rfl

theorem lookupPos_cons_self (e : String × Position) (rest : List (String × Position))
    (sym : String) (he : (e.1 == sym) = true) :
    lookupPos (e :: rest) sym = some e.2 := by
  simp [lookupPos, List.find?_cons_of_pos, he]

theorem lookupPos_cons_ne (e : String × Position) (rest : List (String × Position))
    (sym : String) (he : (e.1 == sym) = false) :
    lookupPos (e :: rest) sym = lookupPos rest sym := by
  simp only [lookupPos]
  rw [List.find?_cons_of_neg]
  simp [he]

theorem setPos_cons (e : String × Position) (rest : List (String × Position))
    (sym : String) (p : Position) :
    setPos (e :: rest) sym p
      = (if e.1 == sym then (e.1, p) else e) :: setPos rest sym p := by
  simp [setPos]

theorem lookupPos_eq_none_of_not_mem (l : List (String × Position)) (sym : String)
    (h : sym ∉ l.map Prod.fst) : lookupPos l sym = none := by
  induction l with
  | nil => rfl
  | cons e rest ih =>
    simp only [List.map_cons, List.mem_cons, not_or] at h
    have he : (e.1 == sym) = false := beq_false_of_ne (fun hc => h.1 (hc ▸ rfl))
    rw [lookupPos_cons_ne e rest sym he]
    exact ih h.2

theorem setPos_of_lookup_none (l : List (String × Position)) (sym : String) (p : Position)
    (h : lookupPos l sym = none) : setPos l sym p = l := by
  induction l with
  | nil => rfl
  | cons e rest ih =>
    by_cases he : (e.1 == sym) = true
    · rw [lookupPos_cons_self e rest sym he] at h
      exact absurd h (by simp)
    · have he' : (e.1 == sym) = false := by simpa using he
      rw [lookupPos_cons_ne e rest sym he'] at h
      rw [setPos_cons, he', ih h]
      simp

theorem lookupPos_setPos_self (l : List (String × Position)) (sym : String)
    (p₀ p : Position) (h : lookupPos l sym = some p₀) :
    lookupPos (setPos l sym p) sym = some p := by
  induction l with
  | nil => simp [lookupPos] at h
  | cons e rest ih =>
    by_cases he : (e.1 == sym) = true
    · rw [setPos_cons, if_pos he, lookupPos_cons_self (e.1, p) (setPos rest sym p) sym (by simpa using he)]
    · have he' : (e.1 == sym) = false := by simpa using he
      rw [lookupPos_cons_ne e rest sym he'] at h
      rw [setPos_cons, if_neg (by simp [he']), lookupPos_cons_ne e _ sym he']
      exact ih h

theorem lookupPos_append_self (l : List (String × Position)) (sym : String) (p : Position)
    (h : lookupPos l sym = none) :
    lookupPos (l ++ [(sym, p)]) sym = some p := by
  induction l with
  | nil => simp [lookupPos, List.find?]
  | cons e rest ih =>
    by_cases he : (e.1 == sym) = true
    · rw [lookupPos_cons_self e rest sym he] at h
      exact absurd h (by simp)
    · have he' : (e.1 == sym) = false := by simpa using he
      rw [lookupPos_cons_ne e rest sym he'] at h
      rw [List.cons_append, lookupPos_cons_ne e _ sym he']
      exact ih h

theorem lookupPos_get_or_create (pf : Portfolio) (sym : String) :
    lookupPos (pf.get_or_create_position sym).2.positions sym
      = some (pf.get_or_create_position sym).1 := by
  unfold Portfolio.get_or_create_position
  cases hl : lookupPos pf.positions sym with
  | some p => simpa [hl]
  | none => simpa [hl] using lookupPos_append_self pf.positions sym { symbol := sym } hl

theorem sum_setPos (l : List (String × Position)) (prices : List (String × ℚ))
    (sym : String) (p₀ p' : Position)
    (hnd : (l.map Prod.fst).Nodup) (hfind : lookupPos l sym = some p₀) :
    ((setPos l sym p').map (fun e => e.2.quantity * priceGet prices e.1)).sum
      = (l.map (fun e => e.2.quantity * priceGet prices e.1)).sum
        - p₀.quantity * priceGet prices sym + p'.quantity * priceGet prices sym := by
  induction l with
  | nil => simp [lookupPos] at hfind
  | cons e rest ih =>
    by_cases he : (e.1 == sym) = true
    · have he' : e.1 = sym := by simpa using he
      have hp : p₀ = e.2 := by
        rw [lookupPos_cons_self e rest sym he] at hfind
        exact (Option.some_injective _ hfind).symm
      have hnone : lookupPos rest sym = none := by
        apply lookupPos_eq_none_of_not_mem
        rw [← he']
        simpa using hnd.not_mem
      rw [setPos_cons, if_pos he, setPos_of_lookup_none rest sym p' hnone]
      simp only [List.map_cons, List.sum_cons, hp, he']
      ring
    · have he' : (e.1 == sym) = false := by simpa using he
      have hfind' : lookupPos rest sym = some p₀ := by
        rw [lookupPos_cons_ne e rest sym he'] at hfind
        exact hfind
      have hs := ih hnd.of_cons hfind'
      rw [setPos_cons, if_neg (by simp [he'])]
      simp only [List.map_cons, List.sum_cons, hs]
      ring

theorem priceGet_single (sym : String) (p : ℚ) : priceGet [(sym, p)] sym = p := by
  simp [priceGet, List.find?]

theorem setPos_append (l1 l2 : List (String × Position)) (sym : String) (p : Position) :
    setPos (l1 ++ l2) sym p = setPos l1 sym p ++ setPos l2 sym p := by
  simp [setPos]

/-- C10: with slippage_bps = 0 and commission_rate = 0, every executed trade is
equity-neutral at its own execution price: for every side, quantity and
positive price p, the broker equity evaluated at p is identical before and
after _apply_trade(side, quantity, p). -/
theorem apply_trade_equity_neutral (b : PaperBroker) (side : OrderSide) (q p : ℚ)
    (h0 : b.slippage_bps = 0) (h1 : b.commission_rate = 0) (hp : 0 < p)
    (hnd : (b.pf.positions.map Prod.fst).Nodup) :
    (b.apply_trade side q p).equity p = b.equity p := by
  by_cases hq : q = 0
  · simp [PaperBroker.apply_trade, hq]
  · unfold PaperBroker.apply_trade PaperBroker.equity
    simp only [hq, if_false, h0, h1]
    cases hl : lookupPos b.pf.positions b.symbol with
    | none =>
      simp only [Portfolio.get_or_create_position, hl, Portfolio.total_equity]
      rw [setPos_append]
      rw [setPos_of_lookup_none b.pf.positions b.symbol _ hl]
      cases side <;>
        simp [setPos, update_quantity, signedQty, priceGet_single] <;> ring
    | some p₀ =>
      simp only [Portfolio.get_or_create_position, hl, Portfolio.total_equity]
      rw [sum_setPos b.pf.positions [(b.symbol, p)] b.symbol p₀ _ hnd hl]
      rw [update_quantity, priceGet_single]
      cases side <;> simp [signedQty] <;> ring

theorem get_or_create_cash (pf : Portfolio) (sym : String) :
    (pf.get_or_create_position sym).2.cash = pf.cash := by
  unfold Portfolio.get_or_create_position
  cases hl : lookupPos pf.positions sym <;> simp [hl]

theorem apply_trade_symbol (b : PaperBroker) (side : OrderSide) (q p : ℚ) :
    (b.apply_trade side q p).symbol = b.symbol := by
  by_cases hq : q = 0 <;> simp [PaperBroker.apply_trade, hq]

theorem rebalance_symbol (b : PaperBroker) (w p : ℚ) :
    (b.rebalance_to_target_weight w p).symbol = b.symbol := by
  simp only [PaperBroker.rebalance_to_target_weight]
  split
  · rfl
  · rw [apply_trade_symbol]

theorem lookupPos_apply_trade (b : PaperBroker) (side : OrderSide) (q p : ℚ) (hq : q ≠ 0) :
    (lookupPos (b.apply_trade side q p).pf.positions b.symbol).isSome := by
  simp only [PaperBroker.apply_trade, hq, if_false]
  rw [lookupPos_setPos_self _ _ _ _ (lookupPos_get_or_create _ b.symbol)]
  rfl

theorem lookupPos_rebalance_isSome (b : PaperBroker) (w p : ℚ) :
    (lookupPos (b.rebalance_to_target_weight w p).pf.positions b.symbol).isSome := by
  simp only [PaperBroker.rebalance_to_target_weight]
  split
  · rw [lookupPos_get_or_create]
    rfl
  · exact lookupPos_apply_trade _ _ _ _ (by
      intro hc
      rw [Int.cast_eq_zero, abs_eq_zero] at hc
      simp [hc] at *)

/-- C6: rebalance_to_target_weight computes its target share count as
⌊weight*equity/price⌋ (floor: truncation toward negative infinity) and trades
the difference between that and the toward-zero-truncated current quantity:
no fill when the difference is zero, otherwise exactly one appended fill of
size |difference|, BUY when positive and SELL when negative; and Scenario A:
with cash 100000, zero slippage and commission, weight 1.0 at price 100 it
produces exactly one BUY fill of quantity 1000 at price 100 leaving cash 0. -/
theorem rebalance_trades_floor_delta :
    (∀ (b : PaperBroker) (w p : ℚ),
      (⌊w * b.equity p / p⌋ = ratTrunc (b.pf.get_or_create_position b.symbol).1.quantity →
        (b.rebalance_to_target_weight w p).fills = b.fills ∧
        (b.rebalance_to_target_weight w p).pf.cash = b.pf.cash)
      ∧ (∀ d : ℤ,
          d = ⌊w * b.equity p / p⌋ - ratTrunc (b.pf.get_or_create_position b.symbol).1.quantity →
          d ≠ 0 →
          ∃ f : Fill,
            (b.rebalance_to_target_weight w p).fills = b.fills ++ [f] ∧
            f.quantity = ((|d| : ℤ) : ℚ) ∧
            f.side = (if 0 < d then OrderSide.BUY else OrderSide.SELL)))
    ∧ (({ symbol := "T", slippage_bps := 0, commission_rate := 0,
          pf := { cash := 100000 } } : PaperBroker).rebalance_to_target_weight 1 100).fills
        = [{ order_id := 1, symbol := "T", side := OrderSide.BUY, quantity := 1000,
             price := 100, commission := 0, slippage := 0 }]
    ∧ (({ symbol := "T", slippage_bps := 0, commission_rate := 0,
          pf := { cash := 100000 } } : PaperBroker).rebalance_to_target_weight 1 100).pf.cash
        = 0 := by
  refine ⟨fun b w p => ⟨?_, ?_⟩, ?_, ?_⟩
  · intro h
    have hd : ⌊w * b.equity p / p⌋
        - ratTrunc (b.pf.get_or_create_position b.symbol).1.quantity = 0 :=
      sub_eq_zero_of_eq h
    unfold PaperBroker.equity at hd
    simp only [PaperBroker.rebalance_to_target_weight, hd, if_true]
    exact ⟨trivial, get_or_create_cash b.pf b.symbol⟩
  · intro d hd hdne
    have hd' : ⌊w * Portfolio.total_equity b.pf [(b.symbol, p)] / p⌋
        - ratTrunc (b.pf.get_or_create_position b.symbol).1.quantity = d := by
      rw [hd]
      rfl
    simp only [PaperBroker.rebalance_to_target_weight, hd']
    rw [if_neg hdne]
    have hq : ((|d| : ℤ) : ℚ) ≠ 0 := by
      intro hc
      rw [Int.cast_eq_zero, abs_eq_zero] at hc
      exact hdne hc
    simp only [PaperBroker.apply_trade, hq, if_false]
    refine ⟨_, rfl, ?_, rfl⟩
    exact abs_of_nonneg (by positivity)
  · norm_num [PaperBroker.rebalance_to_target_weight, PaperBroker.apply_trade,
      Portfolio.total_equity, Portfolio.get_or_create_position, lookupPos, setPos,
      ratTrunc, priceGet, List.find?]
  · norm_num [PaperBroker.rebalance_to_target_weight, PaperBroker.apply_trade,
      Portfolio.total_equity, Portfolio.get_or_create_position, lookupPos, setPos,
      ratTrunc, priceGet, List.find?]

theorem rebalance_trades_floor_delta_witness :
    ∃ f : Fill,
      (({ symbol := "T", slippage_bps := 0, commission_rate := 0,
          pf := { cash := 100000 } } : PaperBroker).rebalance_to_target_weight
            (-(1 : ℚ)/200000) 100).fills = [] ++ [f] ∧
      f.quantity = ((|(-1 : ℤ)| : ℤ) : ℚ) ∧
      f.side = (if (0 : ℤ) < -1 then OrderSide.BUY else OrderSide.SELL) :=
  (rebalance_trades_floor_delta.1
      { symbol := "T", slippage_bps := 0, commission_rate := 0, pf := { cash := 100000 } }
      (-(1 : ℚ)/200000) 100).2 (-1)
    (by
      norm_num [PaperBroker.equity, Portfolio.total_equity,
        Portfolio.get_or_create_position, lookupPos, ratTrunc, priceGet, List.find?])
    (by norm_num)

/-- The Scenario A broker of spec §8: no frictions, cash 100000. -/
def scenBroker : PaperBroker :=
  { symbol := "T", slippage_bps := 0, commission_rate := 0, pf := { cash := 100000 } }

theorem rebalance_eq_self_of_at_target (c : PaperBroker) (w p : ℚ)
    (hsome : (lookupPos c.pf.positions c.symbol).isSome)
    (h : ⌊w * c.equity p / p⌋ = ratTrunc (c.pf.get_or_create_position c.symbol).1.quantity) :
    c.rebalance_to_target_weight w p = c := by
  obtain ⟨p₀, hp₀⟩ := Option.isSome_iff_exists.mp hsome
  have hgc : c.pf.get_or_create_position c.symbol = (p₀, c.pf) := by
    unfold Portfolio.get_or_create_position
    rw [hp₀]
  have hd : ⌊w * Portfolio.total_equity c.pf [(c.symbol, p)] / p⌋
      - ratTrunc (c.pf.get_or_create_position c.symbol).1.quantity = 0 := by
    have h' := sub_eq_zero_of_eq h
    simpa [PaperBroker.equity] using h'
  simp only [PaperBroker.rebalance_to_target_weight]
  rw [if_pos hd, hgc]

/-- C9: calling rebalance_to_target_weight a second time with the same
(weight, price), when the position after the first call is already at the
share count targeted for that weight and price, changes nothing: in
particular the second call appends no Fill. -/
theorem rebalance_second_call_no_fill (b : PaperBroker) (w p : ℚ)
    (h : ⌊w * (b.rebalance_to_target_weight w p).equity p / p⌋
        = ratTrunc ((b.rebalance_to_target_weight w p).pf.get_or_create_position
            ((b.rebalance_to_target_weight w p).symbol)).1.quantity) :
    (b.rebalance_to_target_weight w p).rebalance_to_target_weight w p
        = b.rebalance_to_target_weight w p
      ∧ ((b.rebalance_to_target_weight w p).rebalance_to_target_weight w p).fills
        = (b.rebalance_to_target_weight w p).fills := by
  have hsome : (lookupPos (b.rebalance_to_target_weight w p).pf.positions
      ((b.rebalance_to_target_weight w p).symbol)).isSome := by
    rw [rebalance_symbol b w p]
    exact lookupPos_rebalance_isSome b w p
  have heq := rebalance_eq_self_of_at_target (b.rebalance_to_target_weight w p) w p hsome h
  exact ⟨heq, by rw [heq]⟩

theorem rebalance_second_call_no_fill_witness :
    (scenBroker.rebalance_to_target_weight 1 100).rebalance_to_target_weight 1 100
        = scenBroker.rebalance_to_target_weight 1 100
      ∧ ((scenBroker.rebalance_to_target_weight 1 100).rebalance_to_target_weight 1 100).fills
        = (scenBroker.rebalance_to_target_weight 1 100).fills :=
  rebalance_second_call_no_fill scenBroker 1 100
    (by
      norm_num [scenBroker, PaperBroker.rebalance_to_target_weight, PaperBroker.apply_trade,
        PaperBroker.equity, Portfolio.total_equity, Portfolio.get_or_create_position,
        lookupPos, setPos, ratTrunc, priceGet, List.find?, Position.update_with_fill,
        signedQty])

/-- A zero-friction broker holding two shares, used to instantiate
equity-neutrality concretely. -/
def heldBroker : PaperBroker :=
  { symbol := "T", slippage_bps := 0, commission_rate := 0,
    pf := { cash := 1000,
            positions := [("T", { symbol := "T", quantity := 2, average_price := 50 })] } }

theorem apply_trade_equity_neutral_witness :
    (heldBroker.apply_trade OrderSide.BUY 3 10).equity 10 = heldBroker.equity 10 :=
  apply_trade_equity_neutral heldBroker OrderSide.BUY 3 10 rfl rfl (by norm_num) (by simp [heldBroker])

/-- Embeds dataclass RiskManager from src/qtrader/risk/manager.py (the spec's
RiskOverlay); unset thresholds are none. -/
structure RiskManager where
  stop_loss_pct : Option ℚ := none
  take_profit_pct : Option ℚ := none
deriving DecidableEq

/-- The stop_loss_hit flag of RiskManager.adjust_weight: an unset threshold
(`self.stop_loss_pct is not None` fails) never sets it; long positions compare
`price <= avg*(1 - pct)`, short positions `price >= avg*(1 + pct)`. -/
def slHit (slp : Option ℚ) (pos_sign avg_price price : ℚ) : Bool :=
  match slp with
  | none => false
  | some v =>
    if 0 < pos_sign then decide (price ≤ avg_price * (1 - v))
    else decide (avg_price * (1 + v) ≤ price)

/-- The take_profit_hit flag of RiskManager.adjust_weight: long positions
compare `price >= avg*(1 + pct)`, short positions `price <= avg*(1 - pct)`. -/
def tpHit (tpp : Option ℚ) (pos_sign avg_price price : ℚ) : Bool :=
  match tpp with
  | none => false
  | some v =>
    if 0 < pos_sign then decide (avg_price * (1 + v) ≤ price)
    else decide (price ≤ avg_price * (1 - v))

/-- Embeds RiskManager.adjust_weight from src/qtrader/risk/manager.py.  The
`not np.isfinite(avg_price)` disjunct of the invalid-basis check is vacuous
over ℚ (no NaN/inf), leaving `avg_price <= 0`. -/
def RiskManager.adjust_weight (rm : RiskManager) (pf : Portfolio) (symbol : String)
    (price requested_weight : ℚ) : ℚ :=
  match lookupPos pf.positions symbol with
  | none => requested_weight
  | some position =>
    if position.quantity = 0 then requested_weight
    else if position.average_price ≤ 0 then requested_weight
    else
      let pos_sign : ℚ := if 0 < position.quantity then 1 else -1
      let weight_sign : ℚ :=
        if requested_weight = 0 then 0 else if 0 < requested_weight then 1 else -1
      if slHit rm.stop_loss_pct pos_sign position.average_price price
          || tpHit rm.take_profit_pct pos_sign position.average_price price then
        if weight_sign ≠ 0 ∧ weight_sign ≠ pos_sign then requested_weight else 0
      else requested_weight

/-- C7: adjust_weight passes the requested weight through unchanged when the
position is absent, flat, has a non-positive average price, or no configured
threshold triggers; when a stop-loss or take-profit threshold triggers it
returns the requested weight unchanged exactly when that weight is nonzero
with sign opposite to the position, and 0 otherwise; and an unset threshold
never triggers. -/
theorem adjust_weight_spec (rm : RiskManager) (pf : Portfolio) (symbol : String)
    (price w : ℚ) :
    (lookupPos pf.positions symbol = none → rm.adjust_weight pf symbol price w = w)
    ∧ (∀ pos, lookupPos pf.positions symbol = some pos →
        pos.quantity = 0 ∨ pos.average_price ≤ 0 →
        rm.adjust_weight pf symbol price w = w)
    ∧ (∀ pos, lookupPos pf.positions symbol = some pos →
        pos.quantity ≠ 0 → 0 < pos.average_price →
        slHit rm.stop_loss_pct (if 0 < pos.quantity then 1 else -1) pos.average_price price
          = false →
        tpHit rm.take_profit_pct (if 0 < pos.quantity then 1 else -1) pos.average_price price
          = false →
        rm.adjust_weight pf symbol price w = w)
    ∧ (∀ pos, lookupPos pf.positions symbol = some pos →
        pos.quantity ≠ 0 → 0 < pos.average_price →
        (slHit rm.stop_loss_pct (if 0 < pos.quantity then 1 else -1) pos.average_price price
            = true ∨
         tpHit rm.take_profit_pct (if 0 < pos.quantity then 1 else -1) pos.average_price price
            = true) →
        rm.adjust_weight pf symbol price w
          = (if w ≠ 0 ∧ ((0 < pos.quantity ∧ w < 0) ∨ (pos.quantity < 0 ∧ 0 < w)) then w
             else 0))
    ∧ (∀ s a pr : ℚ, slHit none s a pr = false ∧ tpHit none s a pr = false) := by
  refine ⟨?_, ?_, ?_, ?_, ?_⟩
  · intro hl
    simp [RiskManager.adjust_weight, hl]
  · intro pos hl hz
    simp only [RiskManager.adjust_weight, hl]
    rcases hz with hz | hz
    · simp [hz]
    · by_cases hq : pos.quantity = 0
      · simp [hq]
      · simp [hq, hz]
  · intro pos hl hq ha hsl htp
    simp only [RiskManager.adjust_weight, hl]
    rw [if_neg hq, if_neg (not_le.mpr ha)]
    rw [if_neg (by simp [hsl, htp])]
  · intro pos hl hq ha htrig
    simp only [RiskManager.adjust_weight, hl]
    rw [if_neg hq, if_neg (not_le.mpr ha)]
    rw [if_pos (by rcases htrig with h | h <;> simp [h])]
    rcases lt_or_gt_of_ne hq with hq2 | hq2
    · have hps : ¬0 < pos.quantity := asymm hq2
      rcases lt_trichotomy w 0 with hw | hw | hw
      · simp only [if_neg hps]
        rw [if_neg, if_neg]
        · rintro ⟨h1, ⟨hgt, _⟩ | ⟨_, hgt⟩⟩ <;> linarith
        · rintro ⟨h1, h2⟩
          rw [if_neg hw.ne, if_neg (asymm hw)] at h2
          exact h2 rfl
      · simp [hw]
      · simp only [if_neg hps]
        rw [if_pos, if_pos]
        · exact ⟨hw.ne.symm, Or.inr ⟨hq2, hw⟩⟩
        · rw [if_neg hw.ne.symm, if_pos hw]
          norm_num
    · have hps : 0 < pos.quantity := hq2
      rcases lt_trichotomy w 0 with hw | hw | hw
      · simp only [if_pos hps]
        rw [if_pos, if_pos]
        · exact ⟨hw.ne, Or.inl ⟨hq2, hw⟩⟩
        · rw [if_neg hw.ne, if_neg (asymm hw)]
          norm_num
      · simp [hw]
      · simp only [if_pos hps]
        rw [if_neg, if_neg]
        · rintro ⟨h1, ⟨_, hgt⟩ | ⟨hgt, _⟩⟩ <;> linarith
        · rintro ⟨h1, h2⟩
          rw [if_neg hw.ne.symm, if_pos hw] at h2
          exact h2 rfl
  · intro s a pr
    exact ⟨rfl, rfl⟩

/-- A portfolio holding a long position, for instantiating the overlay. -/
def riskPf : Portfolio :=
  { cash := 0, positions := [("T", { symbol := "T", quantity := 10, average_price := 100 })] }

theorem adjust_weight_spec_witness :
    RiskManager.adjust_weight { stop_loss_pct := some (1/20), take_profit_pct := none }
      riskPf "T" 90 1 = 0 := by
  have h := (adjust_weight_spec { stop_loss_pct := some (1/20), take_profit_pct := none }
      riskPf "T" 90 1).2.2.2.1
    { symbol := "T", quantity := 10, average_price := 100 }
    (by simp [riskPf, lookupPos, List.find?])
    (by norm_num) (by norm_num)
    (Or.inl (by norm_num [slHit]))
  rw [h]
  norm_num

/-- The optional per-strategy stops object probed via
`getattr(strategy, "stops", None)` in run_backtest. -/
structure StopsCfg where
  stop_loss_pct : Option ℚ := none
  take_profit_pct : Option ℚ := none
deriving DecidableEq

/-- Python truthiness of an optional threshold
(`if getattr(stops, "stop_loss_pct", None):`): None and 0.0 are falsy. -/
def truthy : Option ℚ → Bool
  | some v => v != 0
  | none => false

/-- `np.isfinite(low) and low <= threshold` with low modelled as Option ℚ. -/
def lowTouched : Option ℚ → ℚ → Bool
  | some l, thr => decide (l ≤ thr)
  | none, _ => false

/-- `np.isfinite(high) and high >= threshold` with high modelled as Option ℚ. -/
def highTouched : Option ℚ → ℚ → Bool
  | some h, thr => decide (thr ≤ h)
  | none, _ => false

/-- One input bar row as read by the loop (`float(bar.get(...))`); fields that
can be missing or NaN are Option ℚ.  The open and volume fields are read but
never used by the loop and are omitted. -/
structure BarRow where
  high : Option ℚ := none
  low : Option ℚ := none
  close : Option ℚ := none
deriving DecidableEq

/-- The strategy as consumed by run_backtest: a raw weight per bar index
(missing entries and NaNs are later filled with 0), min_history_bars, and the
optional stops attribute. -/
structure StratM where
  raw_weights : List (Option ℚ)
  min_history_bars : ℕ
  stops : Option StopsCfg := none
deriving DecidableEq

/-- The intrabar stop-processing block (step 1 of the per-bar loop body in
run_backtest, src/qtrader/engine/backtest.py).  The `np.isfinite(avg_price)`
conjunct is vacuous over ℚ.  When a stop or take-profit triggers and the exit
price is positive, the position is flattened via close_position at the
threshold price; the stop-loss check runs first and take-profit only fires
when the stop-loss did not. -/
def stopStep (stops? : Option StopsCfg) (high low : Option ℚ) (b : PaperBroker) :
    PaperBroker :=
  match stops? with
  | none => b
  | some stops =>
    let pp := b.pf.get_or_create_position b.symbol
    let b1 : PaperBroker := { b with pf := pp.2 }
    if pp.1.quantity ≠ 0 ∧ 0 < pp.1.average_price then
      let avg_price := pp.1.average_price
      let exit? : Option ℚ :=
        if 0 < pp.1.quantity then
          if truthy stops.stop_loss_pct
              && lowTouched low (avg_price * (1 - stops.stop_loss_pct.getD 0)) then
            some (avg_price * (1 - stops.stop_loss_pct.getD 0))
          else if truthy stops.take_profit_pct
              && highTouched high (avg_price * (1 + stops.take_profit_pct.getD 0)) then
            some (avg_price * (1 + stops.take_profit_pct.getD 0))
          else none
        else
          if truthy stops.stop_loss_pct
              && highTouched high (avg_price * (1 + stops.stop_loss_pct.getD 0)) then
            some (avg_price * (1 + stops.stop_loss_pct.getD 0))
          else if truthy stops.take_profit_pct
              && lowTouched low (avg_price * (1 - stops.take_profit_pct.getD 0)) then
            some (avg_price * (1 - stops.take_profit_pct.getD 0))
          else none
      match exit? with
      | some exit_price => if 0 < exit_price then b1.close_position exit_price else b1
      | none => b1
    else b1

/-- Broker equity at a possibly-NaN price (none = NaN): NaN propagates through
`cash + Σ qty * last_prices.get(sym, 0.0)` exactly when a position entry for
the broker's own symbol exists (its `qty * nan` term); otherwise every
position's symbol misses the price dict and contributes `qty * 0`. -/
def equityOpt (b : PaperBroker) : Option ℚ → Option ℚ
  | some p => some (b.equity p)
  | none =>
    if (lookupPos b.pf.positions b.symbol).isSome then none
    else some (Portfolio.total_equity b.pf [])

/-- pandas ffill over the close column, carrying the last valid value. -/
def ffillGo : List (Option ℚ) → Option ℚ → List (Option ℚ)
  | [], _ => []
  | x :: xs, last =>
    match x with
    | some v => some v :: ffillGo xs (some v)
    | none => last :: ffillGo xs last

/-- `pd.to_numeric(data["close"], errors="coerce").ffill().bfill()`:
forward-fill, then back-fill (= reversed forward-fill). -/
def sanitizeCloses (l : List (Option ℚ)) : List (Option ℚ) :=
  (ffillGo (ffillGo l none).reverse none).reverse

/-- The aligned per-bar weight:
`strategy.generate_target_weights(data).reindex(data.index).fillna(0.0)` —
a missing or NaN entry becomes 0. -/
def weightAt (raw : List (Option ℚ)) (i : ℕ) : ℚ :=
  ((raw.get? i).bind id).getD 0

/-- The per-bar loop of run_backtest: each item is (bar row, sanitized close,
aligned weight); `i` is the bar index, `prev` the previous bar's sanitized
close.  A bar whose close is NaN or ≤ 0 records the broker equity at the
previous bar's close (price 0.0 for the first bar) and touches nothing;
otherwise stop processing runs, then the rebalance once `min_bars ≤ i+1`, and
the equity at the close is recorded. -/
def runLoop (stops? : Option StopsCfg) (min_bars : ℕ) :
    PaperBroker → ℕ → Option ℚ → List (BarRow × Option ℚ × ℚ) →
      List (Option ℚ) × PaperBroker
  | b, _, _, [] => ([], b)
  | b, i, prev, (row, cl, w) :: rest =>
    match cl with
    | some c =>
      if 0 < c then
        let b1 := stopStep stops? row.high row.low b
        let b2 := if min_bars ≤ i + 1 then b1.rebalance_to_target_weight w c else b1
        let r := runLoop stops? min_bars b2 (i + 1) (some c) rest
        (some (b2.equity c) :: r.1, r.2)
      else
        let r := runLoop stops? min_bars b (i + 1) (some c) rest
        (equityOpt b (if i = 0 then some 0 else prev) :: r.1, r.2)
    | none =>
      let r := runLoop stops? min_bars b (i + 1) none rest
      (equityOpt b (if i = 0 then some 0 else prev) :: r.1, r.2)

/-- Zip bars with their sanitized closes and aligned weights. -/
def zip3 (bars : List BarRow) (cls : List (Option ℚ)) (ws : List ℚ) :
    List (BarRow × Option ℚ × ℚ) :=
  bars.zip (cls.zip ws)

/-- Embeds run_backtest from src/qtrader/engine/backtest.py.  The two
ValueError raises become Except.error; `hasClose` models whether the input
frame has a close column.  Returns the recorded equity series (one entry per
bar, none = NaN) and the final broker; the real BacktestResult carries the
series, len(broker.fills) and two stats derived from the series. -/
def run_backtest (bars : List BarRow) (hasClose : Bool) (strat : StratM)
    (symbol : String) (initial_cash : ℚ) :
    Except String (List (Option ℚ) × PaperBroker) :=
  if bars = [] then Except.error "data is empty"
  else if hasClose = false then Except.error "data must include close column"
  else
    Except.ok (runLoop strat.stops strat.min_history_bars
      (mkPaperBroker symbol initial_cash) 0 none
      (zip3 bars (sanitizeCloses (bars.map (fun r => r.close)))
        ((List.range bars.length).map (weightAt strat.raw_weights))))

theorem ffillGo_length (l : List (Option ℚ)) (last : Option ℚ) :
    (ffillGo l last).length = l.length := by
  induction l generalizing last with
  | nil => rfl
  | cons x xs ih =>
    cases x <;> simp [ffillGo, ih]

theorem sanitizeCloses_length (l : List (Option ℚ)) :
    (sanitizeCloses l).length = l.length := by
  simp [sanitizeCloses, ffillGo_length]

theorem runLoop_fst_length (stops? : Option StopsCfg) (min_bars : ℕ) (b : PaperBroker)
    (i : ℕ) (prev : Option ℚ) (items : List (BarRow × Option ℚ × ℚ)) :
    (runLoop stops? min_bars b i prev items).1.length = items.length := by
  induction items generalizing b i prev with
  | nil => rfl
  | cons it rest ih =>
    obtain ⟨row, cl, w⟩ := it
    cases cl with
    | none => simp [runLoop, ih]
    | some c =>
      by_cases hc : 0 < c <;> simp [runLoop, hc, ih]

/-- C8: run_backtest fails, before any simulation step, exactly when the bar
sequence is empty or the close column is missing; in every other case it runs
to completion and the returned equity sequence has exactly one entry per
input bar. -/
theorem run_backtest_error_iff_complete (bars : List BarRow) (hasClose : Bool)
    (strat : StratM) (symbol : String) (initial_cash : ℚ) :
    match run_backtest bars hasClose strat symbol initial_cash with
    | Except.error _ => bars = [] ∨ hasClose = false
    | Except.ok r => bars ≠ [] ∧ hasClose = true ∧ r.1.length = bars.length := by
  unfold run_backtest
  by_cases hb : bars = []
  · simp [hb]
  · rw [if_neg hb]
    by_cases hc : hasClose = false
    · simp [hc]
    · have hc' : hasClose = true := by
        cases hasClose
        · exact absurd rfl hc
        · rfl
      rw [if_neg hc]
      refine ⟨hb, hc', ?_⟩
      rw [runLoop_fst_length]
      simp [zip3, sanitizeCloses_length]

/-- C2 (amended): for a bar whose (sanitized) close is non-finite or
non-positive, the loop records the broker equity valued at the previous bar's
sanitized close (at price 0.0 for the first bar), evaluates no stops, performs
no rebalance, and hands the broker — portfolio, cash, positions and fills —
unchanged to the next bar; when the previous bar was valid this recorded value
equals the equity recorded at that previous bar. -/
theorem bad_close_carry_forward (stops? : Option StopsCfg) (min_bars : ℕ)
    (b : PaperBroker) (i : ℕ) (prev : Option ℚ) (row : BarRow) (cl : Option ℚ) (w : ℚ)
    (rest : List (BarRow × Option ℚ × ℚ))
    (hinv : cl = none ∨ ∃ c, cl = some c ∧ c ≤ 0) :
    ((runLoop stops? min_bars b i prev ((row, cl, w) :: rest)).1
        = equityOpt b (if i = 0 then some 0 else prev)
          :: (runLoop stops? min_bars b (i + 1) cl rest).1
      ∧ (runLoop stops? min_bars b i prev ((row, cl, w) :: rest)).2
        = (runLoop stops? min_bars b (i + 1) cl rest).2)
    ∧ (∀ rowV c wV rowI clI wI rest', 0 < c →
        (clI = none ∨ ∃ c', clI = some c' ∧ c' ≤ 0) →
        (runLoop stops? min_bars b i prev
            ((rowV, some c, wV) :: (rowI, clI, wI) :: rest')).1.get? 1
          = (runLoop stops? min_bars b i prev
              ((rowV, some c, wV) :: (rowI, clI, wI) :: rest')).1.get? 0) := by
  constructor
  · rcases hinv with hnone | ⟨c, hcl, hle⟩
    · subst hnone
      exact ⟨rfl, rfl⟩
    · subst hcl
      have hc : ¬0 < c := not_lt.mpr hle
      rw [show runLoop stops? min_bars b i prev ((row, some c, w) :: rest)
          = (equityOpt b (if i = 0 then some 0 else prev)
              :: (runLoop stops? min_bars b (i + 1) (some c) rest).1,
             (runLoop stops? min_bars b (i + 1) (some c) rest).2) from by
        simp [runLoop, hc]]
      exact ⟨rfl, rfl⟩
  · intro rowV c wV rowI clI wI rest' hc hinv'
    simp only [runLoop, hc, if_true]
    rcases hinv' with hnone | ⟨c', hcl, hle⟩
    · subst hnone
      simp [runLoop, equityOpt, Nat.succ_ne_zero]
    · subst hcl
      have hc' : ¬0 < c' := not_lt.mpr hle
      simp [runLoop, hc', equityOpt, Nat.succ_ne_zero]

/-- The recorded equity at bar n of a run result (none when the run failed or
the index is out of range). -/
def equityAtBar (e : Except String (List (Option ℚ) × PaperBroker)) (n : ℕ) :
    Option (Option ℚ) :=
  match e with
  | Except.ok r => r.1.get? n
  | Except.error _ => none

/-- Three bars whose closes are 100, −5, −10: bars 1 and 2 are degraded. -/
def badBars : List BarRow :=
  [{ close := some 100 }, { close := some (-5) }, { close := some (-10) }]

/-- Constant full-weight strategy over three bars, no warm-up, no stops. -/
def badStrat : StratM :=
  { raw_weights := [some 1, some 1, some 1], min_history_bars := 0 }

/-- Two bars whose first close is −5 (degraded first bar). -/
def badBars2 : List BarRow := [{ close := some (-5) }, { close := some 100 }]

/-- A strategy providing no weights (all filled with 0), no warm-up, no stops. -/
def badStrat2 : StratM := { raw_weights := [], min_history_bars := 0 }

/-- C2 counterexample: with closes (100, −5, −10), full weight, default
frictions and cash 100000, bar 1 and bar 2 both have non-positive closes yet
record different equities (99939.995 vs −5060.005): the loop values the
unchanged portfolio at the PREVIOUS close, it does not carry the previous
recorded equity forward.  And with closes (−5, 100) the first (degraded) bar
records 100000 (the cash, equity at price 0.0), not 0. -/
theorem bad_close_carry_forward_cex :
    equityAtBar (run_backtest badBars true badStrat "T" 100000) 2
        ≠ equityAtBar (run_backtest badBars true badStrat "T" 100000) 1
      ∧ equityAtBar (run_backtest badBars2 true badStrat2 "T" 100000) 0 ≠ some (some 0) := by
  constructor <;>
    norm_num [equityAtBar, run_backtest, runLoop, stopStep, equityOpt, mkPaperBroker,
      sanitizeCloses, ffillGo, weightAt, zip3, PaperBroker.rebalance_to_target_weight,
      PaperBroker.apply_trade, PaperBroker.equity, Portfolio.total_equity,
      Portfolio.get_or_create_position, lookupPos, setPos, ratTrunc, priceGet,
      List.find?, Position.update_with_fill, signedQty, badBars, badStrat, badBars2,
      badStrat2, List.range_succ, truthy] <;>
    simp <;> norm_num

theorem close_position_flat (b : PaperBroker) (price : ℚ) :
    (b.close_position price).currentQty = 0 := by
  unfold PaperBroker.close_position
  cases hl : lookupPos b.pf.positions b.symbol with
  | none =>
    have hq : b.currentQty = 0 := by simp [PaperBroker.currentQty, hl]
    rw [hq]
    simp [PaperBroker.apply_trade, PaperBroker.currentQty, hl]
  | some pos =>
    have hq : b.currentQty = pos.quantity := by simp [PaperBroker.currentQty, hl]
    rw [hq]
    by_cases h0 : pos.quantity = 0
    · simp [h0, PaperBroker.apply_trade, PaperBroker.currentQty, hl]
    · have habs : ¬(|pos.quantity| = 0) := by simpa using h0
      simp only [PaperBroker.apply_trade, habs, if_false,
        Portfolio.get_or_create_position, hl, PaperBroker.currentQty]
      rw [lookupPos_setPos_self b.pf.positions b.symbol pos _ hl]
      simp [update_quantity]
      by_cases hs : 0 < pos.quantity
      · simp [signedQty, hs, abs_abs, abs_of_pos hs]
      · have hneg : pos.quantity < 0 := lt_of_le_of_ne (not_lt.mp hs) h0
        simp [signedQty, hs, abs_abs, abs_of_neg hneg]

/-- C1: in the per-bar loop's stop block, for a non-flat position with a
positive cost basis: a touched stop-loss flattens the whole position via
close_position at exactly the stop-loss threshold price — with no assumption
on the take-profit side, so the stop-loss is used even when both thresholds
are touched in the same bar — and a touched take-profit (when the stop-loss
did not fire) flattens via close_position at exactly the take-profit
threshold price; long and short cases mirrored. -/
theorem stop_trigger_flattens (b : PaperBroker) (stops : StopsCfg) (high low : Option ℚ)
    (pos : Position) (hl : lookupPos b.pf.positions b.symbol = some pos)
    (ha : 0 < pos.average_price) :
    (0 < pos.quantity →
      (truthy stops.stop_loss_pct
        && lowTouched low (pos.average_price * (1 - stops.stop_loss_pct.getD 0))) = true →
      0 < pos.average_price * (1 - stops.stop_loss_pct.getD 0) →
      stopStep (some stops) high low b
          = b.close_position (pos.average_price * (1 - stops.stop_loss_pct.getD 0))
        ∧ (stopStep (some stops) high low b).currentQty = 0)
    ∧ (0 < pos.quantity →
      (truthy stops.stop_loss_pct
        && lowTouched low (pos.average_price * (1 - stops.stop_loss_pct.getD 0))) = false →
      (truthy stops.take_profit_pct
        && highTouched high (pos.average_price * (1 + stops.take_profit_pct.getD 0))) = true →
      0 < pos.average_price * (1 + stops.take_profit_pct.getD 0) →
      stopStep (some stops) high low b
          = b.close_position (pos.average_price * (1 + stops.take_profit_pct.getD 0))
        ∧ (stopStep (some stops) high low b).currentQty = 0)
    ∧ (pos.quantity < 0 →
      (truthy stops.stop_loss_pct
        && highTouched high (pos.average_price * (1 + stops.stop_loss_pct.getD 0))) = true →
      0 < pos.average_price * (1 + stops.stop_loss_pct.getD 0) →
      stopStep (some stops) high low b
          = b.close_position (pos.average_price * (1 + stops.stop_loss_pct.getD 0))
        ∧ (stopStep (some stops) high low b).currentQty = 0)
    ∧ (pos.quantity < 0 →
      (truthy stops.stop_loss_pct
        && highTouched high (pos.average_price * (1 + stops.stop_loss_pct.getD 0))) = false →
      (truthy stops.take_profit_pct
        && lowTouched low (pos.average_price * (1 - stops.take_profit_pct.getD 0))) = true →
      0 < pos.average_price * (1 - stops.take_profit_pct.getD 0) →
      stopStep (some stops) high low b
          = b.close_position (pos.average_price * (1 - stops.take_profit_pct.getD 0))
        ∧ (stopStep (some stops) high low b).currentQty = 0) := by
  have hgc : b.pf.get_or_create_position b.symbol = (pos, b.pf) := by
    unfold Portfolio.get_or_create_position
    rw [hl]
  refine ⟨?_, ?_, ?_, ?_⟩
  · intro hqpos hsl hpos
    have hq : pos.quantity ≠ 0 := ne_of_gt hqpos
    have heq : stopStep (some stops) high low b
        = b.close_position (pos.average_price * (1 - stops.stop_loss_pct.getD 0)) := by
      simp [stopStep, hgc, hq, ha, hqpos, hsl, hpos]
    exact ⟨heq, by rw [heq]; exact close_position_flat b _⟩
  · intro hqpos hslf htp hpos
    have hq : pos.quantity ≠ 0 := ne_of_gt hqpos
    have heq : stopStep (some stops) high low b
        = b.close_position (pos.average_price * (1 + stops.take_profit_pct.getD 0)) := by
      simp [stopStep, hgc, hq, ha, hqpos, hslf, htp, hpos]
    exact ⟨heq, by rw [heq]; exact close_position_flat b _⟩
  · intro hqneg hsl hpos
    have hq : pos.quantity ≠ 0 := ne_of_lt hqneg
    have hnp : ¬0 < pos.quantity := asymm hqneg
    have heq : stopStep (some stops) high low b
        = b.close_position (pos.average_price * (1 + stops.stop_loss_pct.getD 0)) := by
      simp [stopStep, hgc, hq, ha, hnp, hsl, hpos]
    exact ⟨heq, by rw [heq]; exact close_position_flat b _⟩
  · intro hqneg hslf htp hpos
    have hq : pos.quantity ≠ 0 := ne_of_lt hqneg
    have hnp : ¬0 < pos.quantity := asymm hqneg
    have heq : stopStep (some stops) high low b
        = b.close_position (pos.average_price * (1 - stops.take_profit_pct.getD 0)) := by
      simp [stopStep, hgc, hq, ha, hnp, hslf, htp, hpos]
    exact ⟨heq, by rw [heq]; exact close_position_flat b _⟩

/-- A broker long 1000 shares at cost basis 100, for the stop scenario. -/
def stopBroker : PaperBroker :=
  { symbol := "T",
    pf := { cash := 0,
            positions := [("T", { symbol := "T", quantity := 1000, average_price := 100 })] } }

/-- Stops configured at 5% stop-loss and 1% take-profit. -/
def stopCfg : StopsCfg := { stop_loss_pct := some (1/20), take_profit_pct := some (1/100) }

theorem stop_trigger_flattens_witness :
    stopStep (some stopCfg) (some 120) (some 90) stopBroker
        = stopBroker.close_position (100 * (1 - (1/20 : ℚ)))
      ∧ (stopStep (some stopCfg) (some 120) (some 90) stopBroker).currentQty = 0 := by
  have h := (stop_trigger_flattens stopBroker stopCfg (some 120) (some 90)
      { symbol := "T", quantity := 1000, average_price := 100 }
      (by simp [stopBroker, lookupPos, List.find?]) (by norm_num)).1
    (by norm_num) (by norm_num [truthy, lowTouched, stopCfg]) (by norm_num [stopCfg])
  refine ⟨?_, h.2⟩
  rw [h.1]
  norm_num [stopCfg]

/-- Modelled from the spec: spec §4.4 step 3 requires the requested weight to
be passed through the RiskOverlay (RiskManager.adjust_weight against the
current, possibly just-flattened, position at the bar close) before
`rebalance_to_target_weight` — but run_backtest in
src/qtrader/engine/backtest.py never consults any RiskManager and has no
risk_manager parameter (its caller in src/qtrader/__main__.py passes
`risk_manager=risk`, a keyword run_backtest does not accept).  This definition
is the per-bar loop as the spec words it, for comparison with `runLoop`. -/
def runLoopSpec (risk? : Option RiskManager) (stops? : Option StopsCfg) (min_bars : ℕ) :
    PaperBroker → ℕ → Option ℚ → List (BarRow × Option ℚ × ℚ) →
      List (Option ℚ) × PaperBroker
  | b, _, _, [] => ([], b)
  | b, i, prev, (row, cl, w) :: rest =>
    match cl with
    | some c =>
      if 0 < c then
        let b1 := stopStep stops? row.high row.low b
        let w' := match risk? with
          | some rm => rm.adjust_weight b1.pf b1.symbol c w
          | none => w
        let b2 := if min_bars ≤ i + 1 then b1.rebalance_to_target_weight w' c else b1
        let r := runLoopSpec risk? stops? min_bars b2 (i + 1) (some c) rest
        (some (b2.equity c) :: r.1, r.2)
      else
        let r := runLoopSpec risk? stops? min_bars b (i + 1) (some c) rest
        (equityOpt b (if i = 0 then some 0 else prev) :: r.1, r.2)
    | none =>
      let r := runLoopSpec risk? stops? min_bars b (i + 1) none rest
      (equityOpt b (if i = 0 then some 0 else prev) :: r.1, r.2)

/-- The final broker's position quantity of a run result. -/
def finalQty (e : Except String (List (Option ℚ) × PaperBroker)) : Option ℚ :=
  match e with
  | Except.ok r => some r.2.currentQty
  | Except.error _ => none

/-- Two bars, close 100 then 90: a 10% drop through a 5% stop-loss. -/
def c3Bars : List BarRow := [{ close := some 100 }, { close := some 90 }]

/-- Constant full-weight strategy over the two bars, no warm-up, no stops. -/
def c3Strat : StratM := { raw_weights := [some 1, some 1], min_history_bars := 0 }

/-- A RiskManager with a 5% stop-loss. -/
def c3Risk : RiskManager := { stop_loss_pct := some (1/20) }

/-- C3 divergence, concretely: on closes (100, 90) with requested weight 1 and
a 5% stop-loss overlay configured, run_backtest as implemented rebalances with
the raw weight and ends still holding 999 shares, while the loop as specified
(weight passed through RiskManager.adjust_weight first, which returns 0 on the
triggered stop) ends flat. -/
theorem engine_never_consults_overlay :
    finalQty (run_backtest c3Bars true c3Strat "T" 100000) = some 999
      ∧ (runLoopSpec (some c3Risk) none 0 (mkPaperBroker "T" 100000) 0 none
          (zip3 c3Bars (sanitizeCloses (c3Bars.map (fun r => r.close)))
            ((List.range c3Bars.length).map (weightAt c3Strat.raw_weights)))).2.currentQty
        = 0
      ∧ (999 : ℚ) ≠ 0 := by
  refine ⟨?_, ?_, by norm_num⟩ <;>
    norm_num [finalQty, run_backtest, runLoop, runLoopSpec, stopStep, equityOpt,
      mkPaperBroker, sanitizeCloses, ffillGo, weightAt, zip3,
      PaperBroker.rebalance_to_target_weight, PaperBroker.apply_trade, PaperBroker.equity,
      PaperBroker.currentQty, RiskManager.adjust_weight, slHit, tpHit,
      Portfolio.total_equity, Portfolio.get_or_create_position, lookupPos, setPos,
      ratTrunc, priceGet, List.find?, Position.update_with_fill, signedQty, c3Bars,
      c3Strat, c3Risk, List.range_succ, truthy] <;>
    simp <;> norm_num

theorem bad_close_carry_forward_witness :
    (runLoop none 0 (mkPaperBroker "T" 100) 0 none
          [(({ } : BarRow), some (-1), (0 : ℚ))]).1
        = equityOpt (mkPaperBroker "T" 100) (if 0 = 0 then some 0 else none)
          :: (runLoop none 0 (mkPaperBroker "T" 100) (0 + 1) (some (-1)) []).1
      ∧ (runLoop none 0 (mkPaperBroker "T" 100) 0 none
            [(({ } : BarRow), some (-1), (0 : ℚ))]).2
        = (runLoop none 0 (mkPaperBroker "T" 100) (0 + 1) (some (-1)) []).2 :=
  (bad_close_carry_forward none 0 (mkPaperBroker "T" 100) 0 none { } (some (-1)) 0 []
    (Or.inr ⟨-1, rfl, by norm_num⟩)).1
